import Mathlib

/-!
Verification of the orchestrator-GUI coordination-file logic
(`chefsplan-mvp/orchestrator_gui/app.py`).

Documents are modelled as `List Char`; Python string primitives
(`str.find`, slicing, `strip`, `rstrip`, `replace`, `startswith`,
`endswith`, `in`) are given executable Lean counterparts, and the
pure text-manipulation functions of the application
(`extract_block`, `parse_sections`, `insert_claim_line`, the
validation pipeline of the `/api/claim` endpoint, and one tick of
the file watcher) are translated on top of them.
-/

/-- Python `text.find(pat)`: index of the first occurrence of `pat` in
`text`, `none` when absent (Python returns `-1`).  An empty pattern is
found at index 0, as in Python. -/
def strFind (pat : List Char) : List Char → Option Nat
  | [] => if pat.isPrefixOf [] then some 0 else none
  | c :: rest =>
    if pat.isPrefixOf (c :: rest) then some 0
    else (strFind pat rest).map (· + 1)

/-- Python `text.find(pat, start)`: first occurrence at index `≥ start`,
as an absolute index into `text`. -/
def strFindFrom (pat t : List Char) (s : Nat) : Option Nat :=
  (strFind pat (t.drop s)).map (· + s)

/-- Python `pat in text` (substring containment). -/
def containsSub (pat t : List Char) : Bool :=
  (strFind pat t).isSome

/-- Python `text.rstrip()`: remove trailing whitespace. -/
def rstripList (l : List Char) : List Char :=
  (l.reverse.dropWhile Char.isWhitespace).reverse

/-- Python `text.strip()`: remove leading and trailing whitespace. -/
def stripList (l : List Char) : List Char :=
  rstripList (l.dropWhile Char.isWhitespace)

/-- Python `text.endswith("\n")`. -/
def endsWithNl (l : List Char) : Bool :=
  l.getLast? == some '\n'

/-- Recursion core of `removeAll`, structurally recursive on a fuel
argument so that the kernel can evaluate it; any `fuel ≥ l.length`
yields the same result (`removeAllAux_fuel_irrel`).  On a match the
scan resumes after the matched occurrence: the matched head `c` plus
`pat.length - 1` further characters are consumed. -/
def removeAllAux (pat : List Char) : Nat → List Char → List Char
  | 0, l => l
  | _ + 1, [] => []
  | fuel + 1, c :: rest =>
    if pat ≠ [] ∧ pat.isPrefixOf (c :: rest) then
      removeAllAux pat fuel (rest.drop (pat.length - 1))
    else
      c :: removeAllAux pat fuel rest

/-- Python `text.replace(pat, "")`: delete every (left-to-right,
non-overlapping) occurrence of `pat`.  An empty `pat` leaves the text
unchanged, matching Python `replace("", "")`. -/
def removeAll (pat l : List Char) : List Char :=
  removeAllAux pat l.length l

/-- Section marker `Task Board` (app.py line 35). -/
def taskBoardMarker : List Char := ("Task Board").data

/-- Section marker `Active Claims` (app.py lines 36, 52). -/
def activeClaimsMarker : List Char := ("Active Claims").data

/-- Section marker `Blockers` (app.py lines 37, 55). -/
def blockersMarker : List Char := ("Blockers").data

/-- Section marker `Activity Log` (app.py line 38). -/
def activityLogMarker : List Char := ("Activity Log").data

/-- The probe substring `(Empty` used to detect the placeholder
(app.py line 60). -/
def placeholderProbe : List Char := ("(Empty").data

/-- The exact placeholder phrase removed by `insert_claim_line`
(app.py line 62). -/
def placeholderPhrase : List Char :=
  ("(Empty — agents must add entries here before starting work)").data

/-- Translation of `extract_block(text, start_marker, end_marker=None)`
(app.py lines 21-30): the slice from the first occurrence of
`start_marker` to the first occurrence of `end_marker` at or after it
(to end-of-text when the end marker is `none` or absent); empty when
the start marker is absent. -/
def extract_block (text start_marker : List Char)
    (end_marker : Option (List Char)) : List Char :=
  match strFind start_marker text with
  | none => []
  | some start_idx =>
    match end_marker with
    | none => text.drop start_idx
    | some em =>
      match strFindFrom em text start_idx with
      | none => text.drop start_idx
      | some end_idx => (text.drop start_idx).take (end_idx - start_idx)

/-- The four logical sections broadcast to viewers. -/
structure SectionSet where
  task_board : List Char
  active_claims : List Char
  blockers : List Char
  activity_log : List Char
deriving DecidableEq, Repr

/-- Translation of `parse_sections` (app.py lines 33-39). -/
def parse_sections (full_text : List Char) : SectionSet where
  task_board :=
    stripList (extract_block full_text taskBoardMarker (some activeClaimsMarker))
  active_claims :=
    stripList (extract_block full_text activeClaimsMarker (some blockersMarker))
  blockers :=
    stripList (extract_block full_text blockersMarker (some activityLogMarker))
  activity_log :=
    stripList (extract_block full_text activityLogMarker none)

/-- Translation of `insert_claim_line` (app.py lines 51-74).  A raised
`ValueError` becomes `Except.error` with the same message.  The source
also computes a `header_end` local (lines 64-66) that is never used
afterwards; that dead computation has no counterpart here. -/
def insert_claim_line (full_text line : List Char) :
    Except (List Char) (List Char) :=
  match strFind activeClaimsMarker full_text with
  | none => .error ("Active Claims section not found").data
  | some start =>
    match strFindFrom blockersMarker full_text start with
    | none => .error ("Blockers section not found after Active Claims").data
    | some blk_start =>
      let claims_section := (full_text.drop start).take (blk_start - start)
      let cleaned :=
        if containsSub placeholderProbe claims_section then
          rstripList (removeAll placeholderPhrase claims_section) ++ ['\n']
        else claims_section
      let before := full_text.take start
      let after := full_text.drop blk_start
      let normalized :=
        rstripList cleaned ++ (if endsWithNl cleaned then [] else ['\n'])
      let normalized1 :=
        if endsWithNl normalized then normalized else normalized ++ ['\n']
      let updated_section := normalized1 ++ stripList line ++ ['\n']
      .ok (before ++ updated_section ++ after)

/-- The JSON body of a claim request; Python reads each field with
`data.get(..., "")` / `(data.get(...) or "")`, so every field is a
plain string here. -/
structure ClaimRequest where
  token : List Char
  taskId : List Char
  agent : List Char
  startUtc : List Char
  eta : List Char
  scope : List Char
  branch : List Char

/-- Outcome of `api_claim`: on failure, the error string and HTTP
status code of the JSON response; on success, the full text written
back to the file. -/
inductive ClaimResult where
  | failure (error : List Char) (code : Nat)
  | success (updated : List Char)
deriving DecidableEq, Repr

/-- The authorization test of app.py line 81 (`if not token or
provided != token`), negated: the token is accepted exactly when a
non-empty secret is configured and the provided token equals it. -/
def tokenAccepted (envToken : Option (List Char)) (provided : List Char) : Bool :=
  match envToken with
  | none => false
  | some tok => decide (tok ≠ [] ∧ provided = tok)

/-- Translation of the `api_claim` endpoint body (app.py lines 76-109).
`envToken` is the `ORCH_WRITE_TOKEN` environment variable (`none` when
unset), `full_text` the current content of the coordination file; on
success the result carries the new text written back. -/
def api_claim (envToken : Option (List Char)) (req : ClaimRequest)
    (full_text : List Char) : ClaimResult :=
  if ¬ tokenAccepted envToken req.token then
    .failure ("unauthorized").data 401
  else
    let task_id := stripList req.taskId
    let agent := stripList req.agent
    let start_utc := stripList req.startUtc
    let eta := stripList req.eta
    let scope := stripList req.scope
    let branch := stripList req.branch
    if ¬ ("CP-").data.isPrefixOf task_id then
      .failure ("invalid taskId").data 400
    else if agent = [] ∨ start_utc = [] ∨ eta = [] ∨ scope = [] ∨ branch = [] then
      .failure ("missing fields").data 400
    else
      let sections := parse_sections full_text
      if containsSub task_id sections.active_claims then
        .failure ("task already claimed").data 409
      else
        let sep := (" | ").data
        let line := task_id ++ sep ++ agent ++ sep ++ start_utc ++ sep ++
          eta ++ sep ++ scope ++ sep ++ branch
        match insert_claim_line full_text line with
        | .error e => .failure e 500
        | .ok updated => .success updated

/-- The coordination file as seen by one `stat` call of the watcher:
either absent (`FileNotFoundError`) or present with a modification
timestamp and content. -/
inductive FileState where
  | absent
  | present (mtime : Int) (content : List Char)

/-- The fixed SectionSet broadcast while the file is missing
(app.py lines 121-126). -/
def missingBroadcast : SectionSet where
  task_board := ("AGENTS_ORCHESTRATOR.txt not found").data
  active_claims := []
  blockers := []
  activity_log := []

/-- One iteration of the watcher loop (app.py lines 113-127): given the
remembered `last_mtime` and the observed file state, return the new
remembered timestamp and the broadcast emitted this tick (if any). -/
def watcher_tick (last_mtime : Int) (fs : FileState) :
    Int × Option SectionSet :=
  match fs with
  | .absent => (last_mtime, some missingBroadcast)
  | .present m content =>
    if m ≠ last_mtime then (m, some (parse_sections content))
    else (last_mtime, none)

/-- Several consecutive watcher ticks: thread the remembered timestamp
through the observed file states, collecting each tick's broadcast.
The initial remembered value in `watcher` is `0.0` (app.py line 112). -/
def watcher_run (last_mtime : Int) : List FileState → List (Option SectionSet)
  | [] => []
  | fs :: rest =>
    (watcher_tick last_mtime fs).2 ::
      watcher_run (watcher_tick last_mtime fs).1 rest

deriving instance DecidableEq for Except

/-- A well-formed coordination document with all four markers in order
and one existing claim, used to instantiate the general theorems. -/
def docFour : List Char :=
  ("Task Board\n- T1 pending\n\nActive Claims\nCP-1 | bob | s | e | sc | br\n\nBlockers\n- none\n\nActivity Log\n- created\n").data

/-- A document with an `Active Claims` marker but no `Blockers` marker,
and an `Activity Log` marker. -/
def docNoBlockers : List Char :=
  ("Task Board\n- T1\n\nActive Claims\n- none yet\n\nActivity Log\n- created\n").data

/-- A document with none of the section markers. -/
def docNoMarkers : List Char := ("hello world").data

/-- A document whose Active Claims section holds a line that starts
with `(Empty` but is not the exact placeholder phrase. -/
def docInexact : List Char :=
  ("Active Claims\n(Empty for now)\nBlockers\n- none\n").data

/-- The coordination document of the happy-path claim scenario: an
Active Claims section holding only the placeholder. -/
def exampleDocBefore : List Char :=
  ("Task Board\n- T1 build the thing\n\nActive Claims\n(Empty — agents must add entries here before starting work)\n\nBlockers\n- none\n\nActivity Log\n- created\n").data

/-- The document produced by the happy-path claim submission. -/
def exampleDocAfter : List Char :=
  ("Task Board\n- T1 build the thing\n\nActive Claims\nCP-42 | alice | 2024-01-01T00:00Z | 2024-01-01T02:00Z | build | feature/x\nBlockers\n- none\n\nActivity Log\n- created\n").data

/-- The request of the happy-path claim scenario. -/
def exampleRequest : ClaimRequest where
  token := ("s3cret").data
  taskId := ("CP-42").data
  agent := ("alice").data
  startUtc := ("2024-01-01T00:00Z").data
  eta := ("2024-01-01T02:00Z").data
  scope := ("build").data
  branch := ("feature/x").data

/-- A request whose task id lacks the `CP-` required prefix. -/
def reqBadTask : ClaimRequest where
  token := ("t0k").data
  taskId := ("42").data
  agent := ("a").data
  startUtc := ("s").data
  eta := ("e").data
  scope := ("sc").data
  branch := ("br").data

/-- A request with a valid task id but an empty `agent` field. -/
def reqMissing : ClaimRequest where
  token := ("t0k").data
  taskId := ("CP-7").data
  agent := []
  startUtc := ("s").data
  eta := ("e").data
  scope := ("sc").data
  branch := ("br").data

/-- A request for a task id that already appears in `docFour`'s Active
Claims section. -/
def reqDup : ClaimRequest where
  token := ("t0k").data
  taskId := ("CP-1").data
  agent := ("a").data
  startUtc := ("s").data
  eta := ("e").data
  scope := ("sc").data
  branch := ("br").data

/-- The text produced by inserting a second claim line into `docFour`. -/
def docFourAfter : List Char :=
  ("Task Board\n- T1 pending\n\nActive Claims\nCP-1 | bob | s | e | sc | br\nCP-9 | x | y | z | w | v\nBlockers\n- none\n\nActivity Log\n- created\n").data

/-! ### Properties of the string-search primitives -/

theorem strFind_eq_some (pat t : List Char) (i : Nat) (h : strFind pat t = some i) :
    pat <+: t.drop i ∧ ∀ j, j < i → ¬ pat <+: t.drop j := by
  induction t generalizing i with
  | nil =>
    simp only [strFind] at h
    split at h
    case isTrue hp =>
      injection h with h0
      subst h0
      refine ⟨by simpa using ( List.isPrefixOf_iff_prefix).1 hp, ?_⟩
      intro j hj
      omega
    case isFalse hp => exact absurd h (by simp)
  | cons c rest ih =>
    simp only [strFind] at h
    split at h
    case isTrue hp =>
      injection h with h0
      subst h0
      refine ⟨by simpa using ( List.isPrefixOf_iff_prefix).1 hp, ?_⟩
      intro j hj
      omega
    case isFalse hp =>
      rw [Option.map_eq_some'] at h
      obtain ⟨k, hk, hki⟩ := h
      subst hki
      obtain ⟨hpre, hmin⟩ := ih k hk
      refine ⟨by simpa using hpre, ?_⟩
      intro j hj
      cases j with
      | zero =>
        simpa using fun hcontra =>
          hp (( List.isPrefixOf_iff_prefix).2 hcontra)
      | succ j' =>
        simpa using hmin j' (by omega)

theorem strFind_eq_none (pat t : List Char) (h : strFind pat t = none) :
    ∀ j, ¬ pat <+: t.drop j := by
  induction t with
  | nil =>
    simp only [strFind] at h
    split at h
    case isTrue hp => exact absurd h (by simp)
    case isFalse hp =>
      intro j hcontra
      rw [List.drop_nil] at hcontra
      exact hp (( List.isPrefixOf_iff_prefix).2 hcontra)
  | cons c rest ih =>
    simp only [strFind] at h
    split at h
    case isTrue hp => exact absurd h (by simp)
    case isFalse hp =>
      rw [Option.map_eq_none'] at h
      intro j
      cases j with
      | zero =>
        simpa using fun hcontra =>
          hp (( List.isPrefixOf_iff_prefix).2 hcontra)
      | succ j' => simpa using ih h j'

theorem strFind_some_of (pat t : List Char) (i : Nat) (hpre : pat <+: t.drop i)
    (hmin : ∀ j, j < i → ¬ pat <+: t.drop j) : strFind pat t = some i := by
  induction t generalizing i with
  | nil =>
    rw [List.drop_nil] at hpre
    have hp : pat = [] := List.prefix_nil.mp hpre
    have hi : i = 0 := by
      by_contra h0
      exact hmin 0 (Nat.pos_of_ne_zero h0) (by simp [hp])
    subst hp hi
    simp [strFind]
  | cons c rest ih =>
    cases i with
    | zero =>
      rw [List.drop_zero] at hpre
      simp only [strFind]
      rw [if_pos (( List.isPrefixOf_iff_prefix).2 hpre)]
    | succ k =>
      have h0 : ¬ pat <+: (c :: rest) := by simpa using hmin 0 (Nat.succ_pos k)
      simp only [strFind]
      rw [if_neg (fun hb => h0 (( List.isPrefixOf_iff_prefix).1 hb))]
      rw [ih k (by simpa using hpre) (fun j hj => by simpa using hmin (j + 1) (by omega))]
      rfl

theorem strFindFrom_eq_some (pat t : List Char) (s p : Nat) (hsp : s ≤ p)
    (h : strFind pat t = some p) : strFindFrom pat t s = some p := by
  obtain ⟨hpre, hmin⟩ := strFind_eq_some pat t p h
  have h1 : strFind pat (t.drop s) = some (p - s) := by
    apply strFind_some_of
    · rw [List.drop_drop]
      rwa [Nat.add_sub_cancel' hsp]
    · intro j hj
      rw [List.drop_drop]
      exact hmin (s + j) (by omega)
  simp [strFindFrom, h1, Nat.sub_add_cancel hsp]

theorem containsSub_iff (pat t : List Char) :
    containsSub pat t = true ↔ ∃ j, pat <+: t.drop j := by
  unfold containsSub
  constructor
  · intro h
    cases hf : strFind pat t with
    | none => rw [hf] at h; exact absurd h (by simp)
    | some i => exact ⟨i, (strFind_eq_some pat t i hf).1⟩
  · rintro ⟨j, hj⟩
    cases hf : strFind pat t with
    | none => exact absurd hj (strFind_eq_none pat t hf j)
    | some i => simp [hf]

/-! ### Frame helpers -/

theorem append_frame_take (pre mid suf : List Char) (s : Nat) (hs : pre.length = s) :
    ((pre ++ mid) ++ suf).take s = pre := by
  subst hs
  rw [List.append_assoc, List.take_left]

theorem append_frame_drop (pre mid suf : List Char) (n : Nat)
    (hn : n = ((pre ++ mid) ++ suf).length - suf.length) :
    ((pre ++ mid) ++ suf).drop n = suf := by
  subst hn
  have h : ((pre ++ mid) ++ suf).length - suf.length = (pre ++ mid).length := by
    simp
    omega
  rw [h, List.drop_left]

theorem strFind_le_length (pat t : List Char) (i : Nat) (hne : pat ≠ [])
    (h : strFind pat t = some i) : i ≤ t.length := by
  by_contra hgt
  push_neg at hgt
  have hpre := (strFind_eq_some _ _ _ h).1
  rw [List.drop_eq_nil_of_le (le_of_lt hgt)] at hpre
  exact hne (List.prefix_nil.mp hpre)

theorem strFindFrom_le_length (pat t : List Char) (s i : Nat) (hne : pat ≠ [])
    (h : strFindFrom pat t s = some i) : i ≤ t.length := by
  unfold strFindFrom at h
  rw [Option.map_eq_some'] at h
  obtain ⟨k, hk, hki⟩ := h
  have hpre := (strFind_eq_some _ _ _ hk).1
  rw [List.drop_drop] at hpre
  by_contra hgt
  push_neg at hgt
  rw [List.drop_eq_nil_of_le (by omega)] at hpre
  exact hne (List.prefix_nil.mp hpre)

/-- C1: for every input text containing an `Active Claims` marker
followed, at or after its index, by a `Blockers` marker, the text
returned by `insert_claim_line` agrees byte-for-byte with the input on
the prefix up to the `Active Claims` marker index and on the suffix of
the input starting at the `Blockers` marker index; only the claims
section between them changes. -/
theorem insert_claim_line_frame (t l r : List Char) (s b : Nat)
    (h1 : strFind activeClaimsMarker t = some s)
    (h2 : strFindFrom blockersMarker t s = some b)
    (hr : insert_claim_line t l = .ok r) :
    r.take s = t.take s ∧ r.drop (r.length - (t.length - b)) = t.drop b := by
  have hsle : s ≤ t.length :=
    strFind_le_length _ _ _ (by decide) h1
  simp only [insert_claim_line, h1, h2] at hr
  injection hr with hru
  constructor
  · rw [← hru]
    apply append_frame_take
    rw [List.length_take]
    omega
  · rw [← hru]
    apply append_frame_drop
    rw [List.length_drop]

/-- C2: for every document containing all four markers in increasing
first-occurrence order, `parse_sections` stores, for each section, the
trimmed slice of the document running from that section's marker index
to the next section's marker index, the last section running to the end
of the document; the four slices are contiguous, non-overlapping and in
marker order. -/
theorem parse_sections_all_markers (t : List Char) (p1 p2 p3 p4 : Nat)
    (h1 : strFind taskBoardMarker t = some p1)
    (h2 : strFind activeClaimsMarker t = some p2)
    (h3 : strFind blockersMarker t = some p3)
    (h4 : strFind activityLogMarker t = some p4)
    (o12 : p1 < p2) (o23 : p2 < p3) (o34 : p3 < p4) :
    parse_sections t =
      { task_board := stripList ((t.drop p1).take (p2 - p1))
        active_claims := stripList ((t.drop p2).take (p3 - p2))
        blockers := stripList ((t.drop p3).take (p4 - p3))
        activity_log := stripList (t.drop p4) } := by
  have e12 : strFindFrom activeClaimsMarker t p1 = some p2 :=
    strFindFrom_eq_some _ _ _ _ (by omega) h2
  have e23 : strFindFrom blockersMarker t p2 = some p3 :=
    strFindFrom_eq_some _ _ _ _ (by omega) h3
  have e34 : strFindFrom activityLogMarker t p3 = some p4 :=
    strFindFrom_eq_some _ _ _ _ (by omega) h4
  simp only [parse_sections, extract_block, h1, h2, h3, h4, e12, e23, e34]

/-- Witness for C2 on a concrete four-section document. -/
theorem parse_sections_all_markers_witness :
    parse_sections docFour =
      { task_board := stripList ((docFour.drop 0).take (25 - 0))
        active_claims := stripList ((docFour.drop 25).take (69 - 25))
        blockers := stripList ((docFour.drop 69).take (86 - 69))
        activity_log := stripList (docFour.drop 86) } :=
  parse_sections_all_markers docFour 0 25 69 86 (by decide) (by decide)
    (by decide) (by decide) (by decide) (by decide) (by decide)

/-- C8: on a document without a `Blockers` marker, `parse_sections`
yields an empty `blockers` section, and still recovers `activity_log`
as the trimmed tail of the document from the `Activity Log` marker
whenever that marker is present. -/
theorem parse_sections_missing_blockers (t : List Char)
    (hb : strFind blockersMarker t = none) :
    (parse_sections t).blockers = [] ∧
    ∀ p, strFind activityLogMarker t = some p →
      (parse_sections t).activity_log = stripList (t.drop p) := by
  constructor
  · simp only [parse_sections, extract_block, hb]
    rfl
  · intro p hp
    simp only [parse_sections, extract_block, hp]

/-- Witness for C8 on a concrete document lacking `Blockers`. -/
theorem parse_sections_missing_blockers_witness :
    (parse_sections docNoBlockers).blockers = [] ∧
    (parse_sections docNoBlockers).activity_log = stripList (docNoBlockers.drop 43) :=
  ⟨(parse_sections_missing_blockers docNoBlockers (by decide)).1,
   (parse_sections_missing_blockers docNoBlockers (by decide)).2 43 (by decide)⟩

/-- Witness for C1: inserting a claim into `docFour` (markers at 25
and 69) keeps the surrounding text byte-identical. -/
theorem insert_claim_line_frame_witness :
    docFourAfter.take 25 = docFour.take 25 ∧
    docFourAfter.drop (docFourAfter.length - (docFour.length - 69)) = docFour.drop 69 :=
  insert_claim_line_frame docFour (("CP-9 | x | y | z | w | v").data) docFourAfter
    25 69 (by decide) (by decide) (by decide)

theorem api_claim_success_implies_ok (envT : Option (List Char)) (req : ClaimRequest)
    (t u : List Char) (h : api_claim envT req t = .success u) :
    ∃ line, insert_claim_line t line = .ok u := by
  simp only [api_claim] at h
  split_ifs at h
  split at h
  · exact ClaimResult.noConfusion h
  · rename_i w hm
    simp only [ClaimResult.success.injEq] at h
    subst h
    exact ⟨_, hm⟩

/-- C4: when the `Active Claims` marker is absent from the text, or no
`Blockers` marker occurs at or after it, `insert_claim_line` fails with
the corresponding section-not-found error, and the claim endpoint can
never report success on such a document (so nothing is ever written
back): the mutation is refused, never partially applied. -/
theorem insert_claim_line_section_not_found (t l : List Char) :
    (strFind activeClaimsMarker t = none →
      insert_claim_line t l = .error ("Active Claims section not found").data ∧
      ∀ envT req u, api_claim envT req t ≠ .success u) ∧
    (∀ s, strFind activeClaimsMarker t = some s →
      strFindFrom blockersMarker t s = none →
      insert_claim_line t l = .error ("Blockers section not found after Active Claims").data ∧
      ∀ envT req u, api_claim envT req t ≠ .success u) := by
  constructor
  · intro hn
    constructor
    · simp [insert_claim_line, hn]
    · intro envT req u hcontra
      obtain ⟨line, hok⟩ := api_claim_success_implies_ok envT req t u hcontra
      rw [show insert_claim_line t line = .error ("Active Claims section not found").data
        from by simp [insert_claim_line, hn]] at hok
      exact Except.noConfusion hok
  · intro s hs hn
    constructor
    · simp [insert_claim_line, hs, hn]
    · intro envT req u hcontra
      obtain ⟨line, hok⟩ := api_claim_success_implies_ok envT req t u hcontra
      rw [show insert_claim_line t line =
          .error ("Blockers section not found after Active Claims").data
        from by simp [insert_claim_line, hs, hn]] at hok
      exact Except.noConfusion hok

/-- Witness for C4: a markerless document and a document whose
`Blockers` marker is missing after `Active Claims`. -/
theorem insert_claim_line_section_not_found_witness :
    (insert_claim_line docNoMarkers [] =
      .error ("Active Claims section not found").data ∧
      api_claim (some ("t0k").data) reqDup docNoMarkers ≠ .success []) ∧
    insert_claim_line docNoBlockers [] =
      .error ("Blockers section not found after Active Claims").data :=
  ⟨⟨((insert_claim_line_section_not_found docNoMarkers []).1 (by decide)).1,
    fun h =>
      ((insert_claim_line_section_not_found docNoMarkers []).1 (by decide)).2 _ _ [] h⟩,
   ((insert_claim_line_section_not_found docNoBlockers []).2 17 (by decide) (by decide)).1⟩

/-- C7 counterexample: the claim asserts that the initial remembered
timestamp guarantees the first readable state always counts as a
change; but `last_mtime` starts at `0.0`, so a file whose modification
timestamp is exactly `0` is not treated as a change on the first tick
and nothing is broadcast. -/
theorem watcher_tick_zero_mtime_cex :
    (watcher_tick 0 (FileState.present 0 docFour)).2 = none ∧
    (watcher_tick 0 (FileState.present 0 docFour)).1 = 0 := by
  constructor <;> rfl

/-- C7 (amended): on every watcher tick, a present file whose
timestamp differs from the remembered value updates the remembered
timestamp and broadcasts the parsed sections; an unchanged timestamp
broadcasts nothing; an absent file broadcasts the fixed missing-file
SectionSet and leaves the remembered timestamp untouched; and the
initial remembered value `0` treats the first readable state as a
change provided the file's timestamp is nonzero. -/
theorem watcher_tick_spec (last m : Int) (c : List Char) :
    (m ≠ last → watcher_tick last (FileState.present m c) =
      (m, some (parse_sections c))) ∧
    (watcher_tick last (FileState.present last c) = (last, none)) ∧
    (watcher_tick last FileState.absent = (last, some missingBroadcast)) ∧
    (m ≠ 0 → watcher_tick 0 (FileState.present m c) =
      (m, some (parse_sections c))) := by
  refine ⟨fun h => ?_, ?_, ?_, fun h => ?_⟩
  · simp [watcher_tick, h]
  · simp [watcher_tick]
  · simp [watcher_tick]
  · simp [watcher_tick, h]

/-- Witness for C7's amended theorem at concrete timestamps. -/
theorem watcher_tick_spec_witness :
    watcher_tick 0 (FileState.present 7 docFour) = (7, some (parse_sections docFour)) ∧
    watcher_tick 5 (FileState.present 5 docFour) = (5, none) ∧
    watcher_tick 5 FileState.absent = (5, some missingBroadcast) :=
  ⟨(watcher_tick_spec 0 7 docFour).2.2.2 (by decide),
   (watcher_tick_spec 5 5 docFour).2.1,
   (watcher_tick_spec 5 5 docFour).2.2.1⟩

/-- C10: while the file is absent the watcher broadcasts the fixed
missing-file SectionSet on every tick, not only on the transition into
the absent state: `n` consecutive absent ticks produce `n` identical
broadcasts, whatever the remembered timestamp. -/
theorem watcher_missing_file_every_tick (last : Int) (n : Nat) :
    watcher_run last (List.replicate n FileState.absent) =
      List.replicate n (some missingBroadcast) := by
  induction n generalizing last with
  | zero => rfl
  | succ k ih => simp [List.replicate_succ, watcher_run, watcher_tick, ih]

/-! ### Properties of replace, rstrip and substring occurrences -/

theorem removeAllAux_fuel_irrel (pat : List Char) (f1 f2 : Nat) (l : List Char)
    (h1 : l.length ≤ f1) (h2 : l.length ≤ f2) :
    removeAllAux pat f1 l = removeAllAux pat f2 l := by
  induction f1 generalizing f2 l with
  | zero =>
    have hl : l = [] := List.eq_nil_of_length_eq_zero (Nat.le_zero.mp h1)
    subst hl
    cases f2 <;> rfl
  | succ f ih =>
    cases l with
    | nil => cases f2 <;> rfl
    | cons c rest =>
      cases f2 with
      | zero => simp at h2
      | succ g =>
        simp only [removeAllAux]
        split
        · apply ih
          · simp only [List.length_drop]
            simp only [List.length_cons] at h1
            omega
          · simp only [List.length_drop]
            simp only [List.length_cons] at h2
            omega
        · have he : removeAllAux pat f rest = removeAllAux pat g rest := by
            apply ih
            · simp only [List.length_cons] at h1; omega
            · simp only [List.length_cons] at h2; omega
          rw [he]

theorem removeAll_cons (pat : List Char) (c : Char) (rest : List Char) :
    removeAll pat (c :: rest) =
      if pat ≠ [] ∧ pat.isPrefixOf (c :: rest) then
        removeAll pat (rest.drop (pat.length - 1))
      else c :: removeAll pat rest := by
  unfold removeAll
  simp only [List.length_cons, removeAllAux]
  split
  · apply removeAllAux_fuel_irrel
    · simp only [List.length_drop]; omega
    · exact le_rfl
  · rfl

theorem removeAll_no_occ (pat l : List Char) (h : ∀ j, ¬ pat <+: l.drop j) :
    removeAll pat l = l := by
  induction l with
  | nil => rfl
  | cons c rest ih =>
    have hcond : ¬ (pat ≠ [] ∧ pat.isPrefixOf (c :: rest)) := by
      rintro ⟨hne, hp⟩
      exact h 0 (by simpa using ( List.isPrefixOf_iff_prefix).1 hp)
    rw [removeAll_cons, if_neg hcond, ih (fun j => by simpa using h (j + 1))]

theorem removeAll_append_front (pat xs ys : List Char)
    (h : ∀ j, j < xs.length → ¬ pat <+: (xs ++ ys).drop j) :
    removeAll pat (xs ++ ys) = xs ++ removeAll pat ys := by
  induction xs with
  | nil => simp
  | cons x xs' ih =>
    have hcond : ¬ (pat ≠ [] ∧ pat.isPrefixOf (x :: (xs' ++ ys))) := by
      rintro ⟨hne, hp⟩
      exact h 0 (by simp) (by simpa using ( List.isPrefixOf_iff_prefix).1 hp)
    rw [List.cons_append, removeAll_cons, if_neg hcond,
      ih (fun j hj => by simpa using h (j + 1) (by simp; omega))]
    rfl

theorem removeAll_boundary (pat ys : List Char) (hne : pat ≠ []) :
    removeAll pat (pat ++ ys) = removeAll pat ys := by
  cases pat with
  | nil => exact absurd rfl hne
  | cons p ps =>
    rw [List.cons_append, removeAll_cons, if_pos]
    · have hd : (ps ++ ys).drop ((p :: ps).length - 1) = ys := by
        simp only [List.length_cons, Nat.add_sub_cancel]
        exact List.drop_left ps ys
      rw [hd]
    · refine ⟨by simp, ?_⟩
      apply ( List.isPrefixOf_iff_prefix).2
      rw [← List.cons_append]
      exact List.prefix_append _ _

theorem occurrence_head (pat l : List Char) (j : Nat) (c : Char)
    (hp : pat <+: l.drop j) (hh : pat.head? = some c) : l[j]? = some c := by
  obtain ⟨rest, hrest⟩ := hp
  have h0 : (l.drop j)[0]? = some c := by
    rw [← hrest]
    cases pat with
    | nil => exact absurd hh (by simp)
    | cons a tl =>
      simp only [List.head?_cons, Option.some.injEq] at hh
      simp [hh]
  have h1 : (l.drop j)[0]? = l[j + 0]? := by simp [List.getElem?_drop]
  rw [h1] at h0
  simpa using h0

theorem containsSub_eq_false (pat t : List Char) (h : containsSub pat t = false) :
    ∀ j, ¬ pat <+: t.drop j := by
  intro j hj
  have h2 := (containsSub_iff pat t).2 ⟨j, hj⟩
  rw [h] at h2
  exact Bool.noConfusion h2

theorem rstrip_append_ws (a w : List Char) (hw : ∀ c ∈ w, c.isWhitespace) :
    rstripList (a ++ w) = rstripList a := by
  unfold rstripList
  rw [List.reverse_append, List.dropWhile_append]
  have hnil : w.reverse.dropWhile Char.isWhitespace = [] :=
    List.dropWhile_eq_nil_iff.2 (fun x hx => hw x (List.mem_reverse.mp hx))
  simp [hnil]

theorem rstrip_decomp_eq (l : List Char) :
    l = rstripList l ++ (l.reverse.takeWhile Char.isWhitespace).reverse := by
  unfold rstripList
  conv_lhs => rw [← List.reverse_reverse l,
    ← List.takeWhile_append_dropWhile Char.isWhitespace l.reverse]
  rw [List.reverse_append]

theorem rstrip_tail_ws (l : List Char) :
    ∀ c ∈ (l.reverse.takeWhile Char.isWhitespace).reverse, c.isWhitespace := by
  intro c hc
  exact List.mem_takeWhile_imp (List.mem_reverse.mp hc)

theorem dropWhile_head_not (p : Char → Bool) (l : List Char) (a : Char)
    (h : (l.dropWhile p).head? = some a) : p a = false := by
  induction l with
  | nil => exact absurd h (by simp [List.dropWhile])
  | cons c rest ih =>
    by_cases hc : p c = true
    · rw [List.dropWhile_cons, if_pos hc] at h
      exact ih h
    · rw [List.dropWhile_cons, if_neg hc] at h
      simp only [List.head?_cons, Option.some.injEq] at h
      subst h
      simpa using hc

theorem rstrip_last_not_ws (l : List Char) (c : Char)
    (h : (rstripList l).getLast? = some c) : c.isWhitespace = false := by
  unfold rstripList at h
  rw [List.getLast?_reverse] at h
  exact dropWhile_head_not Char.isWhitespace l.reverse c h

theorem endsWithNl_rstrip (l : List Char) : endsWithNl (rstripList l) = false := by
  unfold endsWithNl
  cases h : (rstripList l).getLast? with
  | none => rfl
  | some c =>
    have hc := rstrip_last_not_ws l c h
    rw [beq_eq_false_iff_ne]
    intro hcc
    injection hcc with hcc
    subst hcc
    exact absurd hc (by decide)

theorem rstrip_eq_self_of_last (m : List Char)
    (h : ∀ c, m.getLast? = some c → c.isWhitespace = false) : rstripList m = m := by
  unfold rstripList
  cases hm : m.reverse with
  | nil =>
    have : m = [] := List.reverse_eq_nil_iff.mp hm
    simp [this]
  | cons c rest =>
    have hc : m.getLast? = some c := by
      have h5 := List.getLast?_reverse m.reverse
      rw [List.reverse_reverse] at h5
      rw [h5, hm]
      rfl
    rw [List.dropWhile_cons, if_neg (by simp [h c hc]), ← hm, List.reverse_reverse]

theorem rstrip_idem (l : List Char) : rstripList (rstripList l) = rstripList l :=
  rstrip_eq_self_of_last _ (rstrip_last_not_ws l)

theorem prefix_of_append_left (pat a b : List Char) (h : pat <+: a ++ b)
    (hl : pat.length ≤ a.length) : pat <+: a := by
  have h2 := List.prefix_take_iff.2 ⟨h, hl⟩
  rwa [List.take_left] at h2

theorem endsWithNl_concat (x : List Char) : endsWithNl (x ++ ['\n']) = true := by
  simp [endsWithNl]

theorem containsSub_rstrip (pat l : List Char) (c : Char)
    (hlast : pat.getLast? = some c) (hc : c.isWhitespace = false)
    (h : containsSub pat l = true) : containsSub pat (rstripList l) = true := by
  obtain ⟨j, hj⟩ := (containsSub_iff pat l).1 h
  apply (containsSub_iff pat (rstripList l)).2
  refine ⟨j, ?_⟩
  have hne : pat ≠ [] := by
    intro h0
    rw [h0] at hlast
    exact Option.noConfusion hlast
  have hplen : 0 < pat.length := List.length_pos.2 hne
  have hpl : pat[pat.length - 1]? = some c := by
    rw [← List.getLast?_eq_getElem? pat]
    exact hlast
  have hdecomp := rstrip_decomp_eq l
  have hws := rstrip_tail_ws l
  have hjk : j + pat.length ≤ (rstripList l).length := by
    by_contra hlt
    push_neg at hlt
    obtain ⟨rest, hrest⟩ := hj
    have h1 : l[j + (pat.length - 1)]? = some c := by
      rw [show l[j + (pat.length - 1)]? = (l.drop j)[pat.length - 1]? from by
        simp [List.getElem?_drop]]
      rw [← hrest, List.getElem?_append_left (by omega)]
      exact hpl
    rw [hdecomp, List.getElem?_append] at h1
    rw [if_neg (by omega)] at h1
    have hmem := List.getElem?_mem h1
    have := hws c hmem
    rw [hc] at this
    exact Bool.noConfusion this
  have hj2 : pat <+: (rstripList l).drop j ++
      ((l.reverse.takeWhile Char.isWhitespace).reverse).drop
        (j - (rstripList l).length) := by
    rw [← List.drop_append_eq_append_drop, ← hdecomp]
    exact hj
  apply prefix_of_append_left _ _ _ hj2
  rw [List.length_drop]
  omega

/-- C5: when the Active Claims section consists of the section header
(the marker itself) followed only by whitespace, the exact placeholder
phrase and more whitespace, `insert_claim_line` removes the
placeholder, normalizes the section to the header plus exactly one
trailing newline, and appends the trimmed claim line plus one newline,
so the resulting section is exactly the header line followed by the
new claim line. -/
theorem insert_claim_line_placeholder_only (t l w1 w2 : List Char) (s b : Nat)
    (h1 : strFind activeClaimsMarker t = some s)
    (h2 : strFindFrom blockersMarker t s = some b)
    (hcs : (t.drop s).take (b - s) =
      activeClaimsMarker ++ w1 ++ placeholderPhrase ++ w2)
    (hw1 : ∀ c ∈ w1, c.isWhitespace) (hw2 : ∀ c ∈ w2, c.isWhitespace) :
    insert_claim_line t l =
      .ok (t.take s ++ (activeClaimsMarker ++ ['\n'] ++ stripList l ++ ['\n']) ++
        t.drop b) := by
  have hsplit : activeClaimsMarker ++ w1 ++ placeholderPhrase ++ w2 =
      (activeClaimsMarker ++ w1) ++ (placeholderPhrase ++ w2) := by
    simp [List.append_assoc]
  have hnoocc : ∀ j, j < (activeClaimsMarker ++ w1).length →
      ¬ placeholderPhrase <+:
        ((activeClaimsMarker ++ w1) ++ (placeholderPhrase ++ w2)).drop j := by
    intro j hjlen hcontra
    have hhead := occurrence_head _ _ _ '(' hcontra (by decide)
    rw [List.getElem?_append_left hjlen] at hhead
    have hmem := List.getElem?_mem hhead
    rcases List.mem_append.mp hmem with hin | hin
    · exact absurd hin (by decide)
    · have := hw1 _ hin
      exact absurd this (by decide)
  have hprobe : placeholderProbe <+: placeholderPhrase :=
    ⟨(" — agents must add entries here before starting work)").data, by decide⟩
  have hcont : containsSub placeholderProbe
      ((activeClaimsMarker ++ w1) ++ (placeholderPhrase ++ w2)) = true := by
    apply (containsSub_iff _ _).2
    refine ⟨(activeClaimsMarker ++ w1).length, ?_⟩
    rw [List.drop_left]
    exact hprobe.trans (List.prefix_append _ _)
  have hw2noocc : ∀ j, ¬ placeholderPhrase <+: w2.drop j := by
    intro j hcontra
    have hhead := occurrence_head _ _ _ '(' hcontra (by decide)
    have hmem := List.getElem?_mem hhead
    have := hw2 _ hmem
    exact absurd this (by decide)
  have hrem : removeAll placeholderPhrase
      ((activeClaimsMarker ++ w1) ++ (placeholderPhrase ++ w2)) =
      (activeClaimsMarker ++ w1) ++ w2 := by
    rw [removeAll_append_front _ _ _ hnoocc, removeAll_boundary _ _ (by decide),
      removeAll_no_occ _ _ hw2noocc]
  have hrs : rstripList ((activeClaimsMarker ++ w1) ++ w2) = activeClaimsMarker := by
    rw [List.append_assoc, rstrip_append_ws activeClaimsMarker (w1 ++ w2) ?hw]
    · decide
    case hw =>
      intro c hcmem
      rcases List.mem_append.mp hcmem with hin | hin
      · exact hw1 _ hin
      · exact hw2 _ hin
  simp only [insert_claim_line, h1, h2, hcs, hsplit, hcont, if_true, hrem, hrs]
  rw [if_pos (endsWithNl_concat activeClaimsMarker),
    rstrip_append_ws activeClaimsMarker ['\n'] (by decide), List.append_nil]
  rw [show rstripList activeClaimsMarker = activeClaimsMarker from by decide]
  rw [if_neg (by decide : ¬ endsWithNl activeClaimsMarker = true)]

/-- Witness for C5 on the happy-path document, whose Active Claims
section is the marker, a newline, the placeholder and two newlines. -/
theorem insert_claim_line_placeholder_only_witness :
    insert_claim_line exampleDocBefore
        (("CP-42 | alice | 2024-01-01T00:00Z | 2024-01-01T02:00Z | build | feature/x").data) =
      .ok (exampleDocBefore.take 33 ++
        (activeClaimsMarker ++ ['\n'] ++
          stripList (("CP-42 | alice | 2024-01-01T00:00Z | 2024-01-01T02:00Z | build | feature/x").data) ++
          ['\n']) ++
        exampleDocBefore.drop 108) :=
  insert_claim_line_placeholder_only exampleDocBefore
    (("CP-42 | alice | 2024-01-01T00:00Z | 2024-01-01T02:00Z | build | feature/x").data)
    ['\n'] ['\n', '\n'] 33 108 (by decide) (by decide) (by decide) (by decide) (by decide)

/-- C9: the placeholder test probes only for the substring `(Empty`
while the removal deletes only the exact placeholder phrase, so a
claims section that contains `(Empty` but not the exact phrase takes
the placeholder branch without deleting anything: the section is
right-trimmed, the inexact `(Empty` line survives in it, and the new
claim line is appended after it. -/
theorem insert_claim_line_inexact_placeholder (t l : List Char) (s b : Nat)
    (h1 : strFind activeClaimsMarker t = some s)
    (h2 : strFindFrom blockersMarker t s = some b)
    (hprobe : containsSub placeholderProbe ((t.drop s).take (b - s)) = true)
    (hexact : containsSub placeholderPhrase ((t.drop s).take (b - s)) = false) :
    insert_claim_line t l =
      .ok (t.take s ++ (rstripList ((t.drop s).take (b - s)) ++ ['\n'] ++
        stripList l ++ ['\n']) ++ t.drop b) ∧
    containsSub placeholderProbe (rstripList ((t.drop s).take (b - s))) = true := by
  constructor
  · have hrem : removeAll placeholderPhrase ((t.drop s).take (b - s)) =
        (t.drop s).take (b - s) :=
      removeAll_no_occ _ _ (containsSub_eq_false _ _ hexact)
    simp only [insert_claim_line, h1, h2, hprobe, if_true, hrem]
    rw [if_pos (endsWithNl_concat _)]
    rw [rstrip_append_ws _ ['\n'] (by decide), rstrip_idem, List.append_nil]
    rw [if_neg (by simp [endsWithNl_rstrip])]
  · exact containsSub_rstrip _ _ 'y' (by decide) (by decide) hprobe

/-- Witness for C9 on a section holding the inexact line
`(Empty for now)`. -/
theorem insert_claim_line_inexact_placeholder_witness :
    insert_claim_line docInexact (("CP-3 | a | b | c | d | e").data) =
      .ok (docInexact.take 0 ++ (rstripList ((docInexact.drop 0).take (30 - 0)) ++ ['\n'] ++
        stripList (("CP-3 | a | b | c | d | e").data) ++ ['\n']) ++ docInexact.drop 30) ∧
    containsSub placeholderProbe (rstripList ((docInexact.drop 0).take (30 - 0))) = true :=
  insert_claim_line_inexact_placeholder docInexact (("CP-3 | a | b | c | d | e").data)
    0 30 (by decide) (by decide) (by decide) (by decide)

/-- C6: the claim endpoint applies its rejection checks in order, each
with its own error string and status code, and every rejection returns
a failure (so the file is never written): no or empty configured
secret, or a non-matching token, gives `unauthorized`/401; then a
trimmed task id lacking the `CP-` prefix gives `invalid taskId`/400;
then an empty trimmed agent/startUtc/eta/scope/branch gives
`missing fields`/400; then a task id occurring as a substring anywhere
in the parsed `active_claims` section (field-unaware, so a task id that
is a substring of another claimed id also matches) gives
`task already claimed`/409. -/
theorem api_claim_rejection_order (envT : Option (List Char)) (req : ClaimRequest)
    (t : List Char) :
    (tokenAccepted envT req.token = false →
      api_claim envT req t = .failure ("unauthorized").data 401) ∧
    (tokenAccepted envT req.token = true →
      ("CP-").data.isPrefixOf (stripList req.taskId) = false →
      api_claim envT req t = .failure ("invalid taskId").data 400) ∧
    (tokenAccepted envT req.token = true →
      ("CP-").data.isPrefixOf (stripList req.taskId) = true →
      (stripList req.agent = [] ∨ stripList req.startUtc = [] ∨
        stripList req.eta = [] ∨ stripList req.scope = [] ∨
        stripList req.branch = []) →
      api_claim envT req t = .failure ("missing fields").data 400) ∧
    (tokenAccepted envT req.token = true →
      ("CP-").data.isPrefixOf (stripList req.taskId) = true →
      stripList req.agent ≠ [] → stripList req.startUtc ≠ [] →
      stripList req.eta ≠ [] → stripList req.scope ≠ [] →
      stripList req.branch ≠ [] →
      containsSub (stripList req.taskId) (parse_sections t).active_claims = true →
      api_claim envT req t = .failure ("task already claimed").data 409) := by
  refine ⟨fun h1 => ?_, fun h1 h2 => ?_, fun h1 h2 h3 => ?_,
    fun h1 h2 h3 h4 h5 h6 h7 h8 => ?_⟩
  · simp [api_claim, h1]
  · simp [api_claim, h1, h2]
  · simp [api_claim, h1, h2, h3]
  · simp [api_claim, h1, h2, h3, h4, h5, h6, h7, h8]

/-- Witness for C6: each rejection observed on a concrete request. -/
theorem api_claim_rejection_order_witness :
    api_claim none exampleRequest docFour = .failure ("unauthorized").data 401 ∧
    api_claim (some ("t0k").data) reqBadTask docFour =
      .failure ("invalid taskId").data 400 ∧
    api_claim (some ("t0k").data) reqMissing docFour =
      .failure ("missing fields").data 400 ∧
    api_claim (some ("t0k").data) reqDup docFour =
      .failure ("task already claimed").data 409 :=
  ⟨(api_claim_rejection_order none exampleRequest docFour).1 (by decide),
   (api_claim_rejection_order (some ("t0k").data) reqBadTask docFour).2.1
     (by decide) (by decide),
   (api_claim_rejection_order (some ("t0k").data) reqMissing docFour).2.2.1
     (by decide) (by decide) (by decide),
   (api_claim_rejection_order (some ("t0k").data) reqDup docFour).2.2.2
     (by decide) (by decide) (by decide) (by decide) (by decide) (by decide)
     (by decide) (by decide)⟩

/-- C3: the happy-path scenario.  On a document whose Active Claims
section holds only the placeholder, a submission with the configured
secret, task id `CP-42` and non-empty fields succeeds and writes back a
document whose Active Claims section is exactly the header line plus
the single claim line `CP-42 | alice | 2024-01-01T00:00Z |
2024-01-01T02:00Z | build | feature/x`; an identical second submission
fails with `task already claimed`. -/
theorem api_claim_happy_path :
    api_claim (some ("s3cret").data) exampleRequest exampleDocBefore =
      .success exampleDocAfter ∧
    (parse_sections exampleDocAfter).active_claims =
      ("Active Claims\nCP-42 | alice | 2024-01-01T00:00Z | 2024-01-01T02:00Z | build | feature/x").data ∧
    api_claim (some ("s3cret").data) exampleRequest exampleDocAfter =
      .failure ("task already claimed").data 409 :=
  ⟨by decide, by decide, by decide⟩
